import Mathlib

/-!
Verification of the schema-migration engine in `scripts/migrate.js`
(`MigrationManager`).

The engine's pure structure is embedded shallowly:

* filename parsing and catalog construction (`getMigrations`) over an explicit
  directory listing, with the JavaScript string primitives it uses
  (`String.prototype.replace` with a plain-string pattern replaces the first
  occurrence only; `String.prototype.split('_')[0]` is the text before the
  first underscore; `parseInt` parses a leading digit run; `Array.prototype.sort`
  with no comparator sorts lexicographically by code unit — code units and
  code points agree on the ASCII filenames at hand);
* the database connection as assumed by the engine (a session executing SQL
  with standard transactional semantics; the transport layer is an external
  collaborator), with `exec` interpreting the commands the engine issues
  (`BEGIN`/`COMMIT`/`ROLLBACK`, a migration's statement script, the ledger
  `INSERT` and `DELETE`);
* the engine operations `applyMigration`, `runPending`, `rollback`, the
  `status` percentage computation, and `create`, each following the source
  line by line, including the places where the source ignores the result of
  an `exec_sql` call.

Console output that reveals control flow (which migration a loop reached) is
modelled as an explicit log of filenames.
-/

namespace Migrate

/-! ### JavaScript string primitives used by `migrate.js` -/

/-- Auxiliary for `jsReplaceFirst`: remove the first occurrence of `pat`. -/
def replaceFirstAux (pat : List Char) : List Char → List Char
  | [] => []
  | c :: cs =>
    if pat.isPrefixOf (c :: cs) then (c :: cs).drop pat.length
    else c :: replaceFirstAux pat cs

/-- JavaScript `s.replace(pat, '')` with a plain-string pattern: removes the
first occurrence of `pat` (used as `file.replace('.sql', '')`). -/
def jsReplaceFirst (s pat : String) : String :=
  ⟨replaceFirstAux pat.data s.data⟩

/-- JavaScript `s.split(sep)[0]`: the text before the first separator. -/
def jsSplitHead (s : String) (sep : Char) : String :=
  ⟨s.data.takeWhile (fun c => c ≠ sep)⟩

/-- JavaScript `parseInt` restricted to the inputs it sees here: the value of
the leading digit run, `NaN` (modelled as `none`) when there is none. -/
def parseIntJs (s : String) : Option Nat :=
  let ds := s.data.takeWhile Char.isDigit
  if ds.isEmpty then none
  else some (ds.foldl (fun acc c => 10 * acc + (c.toNat - 48)) 0)

/-- JavaScript `s.endsWith(pat)`. -/
def jsEndsWith (s pat : String) : Bool :=
  pat.data.isSuffixOf s.data

/-- Lexicographic (code-unit) order on character lists, as used by
JavaScript's default `Array.prototype.sort` comparator on strings. -/
def charListLeB : List Char → List Char → Bool
  | [], _ => true
  | _ :: _, [] => false
  | a :: as, b :: bs =>
    if a.toNat < b.toNat then true
    else if b.toNat < a.toNat then false
    else charListLeB as bs

/-- The sort relation of JavaScript's default string sort. -/
def jsLe (s t : String) : Prop := charListLeB s.data t.data = true

instance : DecidableRel jsLe := fun s t => by unfold jsLe; infer_instance

theorem charListLeB_total : ∀ as bs, charListLeB as bs = true ∨ charListLeB bs as = true
  | [], _ => Or.inl rfl
  | _ :: _, [] => Or.inr rfl
  | a :: as, b :: bs => by
    rcases Nat.lt_trichotomy a.toNat b.toNat with h | h | h
    · left; simp [charListLeB, h]
    · rcases charListLeB_total as bs with ih | ih
      · left; simp [charListLeB, h, ih]
      · right; simp [charListLeB, h.symm, ih]
    · right; simp [charListLeB, h]

theorem charListLeB_trans : ∀ as bs cs, charListLeB as bs = true →
    charListLeB bs cs = true → charListLeB as cs = true
  | [], _, _, _, _ => rfl
  | a :: as, b :: bs, [], _, h₂ => by simp [charListLeB] at h₂
  | a :: as, [], cs, h₁, _ => by simp [charListLeB] at h₁
  | a :: as, b :: bs, c :: cs, h₁, h₂ => by
    simp only [charListLeB] at h₁ h₂ ⊢
    rcases Nat.lt_trichotomy a.toNat b.toNat with hab | hab | hab
    · rcases Nat.lt_trichotomy b.toNat c.toNat with hbc | hbc | hbc
      · simp [show a.toNat < c.toNat by omega]
      · simp [show a.toNat < c.toNat by omega]
      · simp [show ¬ b.toNat < c.toNat by omega, hbc] at h₂
    · rcases Nat.lt_trichotomy b.toNat c.toNat with hbc | hbc | hbc
      · simp [show a.toNat < c.toNat by omega]
      · simp only [show ¬ a.toNat < b.toNat by omega,
          show ¬ b.toNat < a.toNat by omega, if_false, ite_false, if_neg,
          not_false_eq_true] at h₁
        simp only [show ¬ b.toNat < c.toNat by omega,
          show ¬ c.toNat < b.toNat by omega, if_neg, not_false_eq_true] at h₂
        simp only [show ¬ a.toNat < c.toNat by omega,
          show ¬ c.toNat < a.toNat by omega, if_neg, not_false_eq_true]
        exact charListLeB_trans as bs cs h₁ h₂
      · simp [show ¬ b.toNat < c.toNat by omega, hbc] at h₂
    · simp [show ¬ a.toNat < b.toNat by omega, hab] at h₁

instance : IsTotal String jsLe := ⟨fun s t => charListLeB_total s.data t.data⟩

instance : IsTrans String jsLe :=
  ⟨fun s t u => charListLeB_trans s.data t.data u.data⟩

/-! ### The migration catalog (`getMigrations`, lines 31-47) -/

/-- A catalog entry as built by `getMigrations`: `filename`, `name`
(`filename.replace('.sql','')`), and `timestamp`
(`parseInt(filename.split('_')[0])`, `none` for `NaN`). -/
structure Migration where
  filename : String
  name : String
  timestamp : Option Nat
deriving DecidableEq, Repr

/-- The entry `getMigrations` builds for one directory entry. -/
def mkMigration (file : String) : Migration :=
  { filename := file
    name := jsReplaceFirst file ".sql"
    timestamp := parseIntJs (jsSplitHead file '_') }

/-- `getMigrations` over an explicit directory listing: keep the `.sql` files,
sort them with JavaScript's default (lexicographic) `Array.prototype.sort`,
and build the catalog entries. -/
def getMigrations (files : List String) : List Migration :=
  ((files.filter (fun f => jsEndsWith f ".sql")).insertionSort jsLe).map mkMigration

/-! ### The database connection

`migrate.js` drives the database exclusively through `exec_sql` remote calls.
Per the specification's external-interface assumption, the connection is a
single session executing SQL with standard transactional semantics; the
transport layer is out of scope.  Schema effects are opaque: a migration body
is a list of statements, each either succeeding with a named effect or
raising an error.  A statement error inside an open transaction puts the
transaction into the aborted state (as in PostgreSQL); `COMMIT` on an aborted
transaction rolls it back. -/

/-- A row of `schema_migrations` (the ledger). -/
structure LedgerRow where
  name : String
  filename : String
  appliedAt : Nat
deriving DecidableEq, Repr

/-- Committed (or pending) database content: opaque schema effects plus the
ledger table, the ledger kept in insertion order. -/
structure DBState where
  schema : List String
  ledger : List LedgerRow
deriving DecidableEq, Repr

/-- An open transaction: its pending view of the database and whether a
statement error has aborted it. -/
structure TxState where
  pending : DBState
  aborted : Bool
deriving DecidableEq, Repr

/-- A session: committed state plus the open transaction, if any. -/
structure Session where
  committed : DBState
  tx : Option TxState
deriving DecidableEq, Repr

/-- One statement of a migration body: an opaque schema change that succeeds,
or a statement that raises an error. -/
inductive SqlStmt where
  | ddl (effect : String)
  | fail
deriving DecidableEq, Repr

/-- Errors surfaced by `exec`. -/
inductive SqlError where
  | stmtFailed
  | txAborted
  | uniqueViolation
deriving DecidableEq, Repr

/-- The SQL texts `migrate.js` sends through `exec_sql`, as commands. -/
inductive Cmd where
  | beginTx
  | commitTx
  | rollbackTx
  | script (stmts : List SqlStmt)
  | insertLedger (row : LedgerRow)
  | deleteLedger (name : String)

/-- Run a migration body's statements against a database view, stopping at
the first error. -/
def runStmts : List SqlStmt → DBState → DBState × Option SqlError
  | [], db => (db, none)
  | .ddl e :: rest, db => runStmts rest { db with schema := db.schema ++ [e] }
  | .fail :: _, db => (db, some .stmtFailed)

/-- Execute one command on the session, returning the new session and the
error the call reports, if any.  `BEGIN`/`COMMIT`/`ROLLBACK` issued in the
wrong state are warnings, not errors, as in PostgreSQL. -/
def exec (s : Session) : Cmd → Session × Option SqlError
  | .beginTx =>
    match s.tx with
    | none => ({ s with tx := some ⟨s.committed, false⟩ }, none)
    | some _ => (s, none)
  | .commitTx =>
    match s.tx with
    | none => (s, none)
    | some t =>
      ({ committed := if t.aborted then s.committed else t.pending, tx := none }, none)
  | .rollbackTx =>
    match s.tx with
    | none => (s, none)
    | some _ => ({ s with tx := none }, none)
  | .script stmts =>
    match s.tx with
    | some t =>
      if t.aborted then (s, some .txAborted)
      else
        match runStmts stmts t.pending with
        | (db, none) => ({ s with tx := some ⟨db, false⟩ }, none)
        | (_, some e) => ({ s with tx := some ⟨t.pending, true⟩ }, some e)
    | none =>
      match runStmts stmts s.committed with
      | (db, none) => ({ s with committed := db }, none)
      | (_, some e) => (s, some e)
  | .insertLedger row =>
    match s.tx with
    | some t =>
      if t.aborted then (s, some .txAborted)
      else if t.pending.ledger.any (fun r => r.name = row.name) then
        ({ s with tx := some ⟨t.pending, true⟩ }, some .uniqueViolation)
      else
        ({ s with
            tx := some ⟨{ t.pending with ledger := t.pending.ledger ++ [row] }, false⟩ },
          none)
    | none =>
      if s.committed.ledger.any (fun r => r.name = row.name) then
        (s, some .uniqueViolation)
      else
        ({ s with committed :=
            { s.committed with ledger := s.committed.ledger ++ [row] } }, none)
  | .deleteLedger name =>
    match s.tx with
    | some t =>
      if t.aborted then (s, some .txAborted)
      else
        ({ s with
            tx := some ⟨{ t.pending with
              ledger := t.pending.ledger.filter (fun r => r.name ≠ name) }, false⟩ },
          none)
    | none =>
      ({ s with committed := { s.committed with
          ledger := s.committed.ledger.filter (fun r => r.name ≠ name) } }, none)

/-! ### `applyMigration` (lines 82-126) -/

/-- The ledger row the `INSERT INTO schema_migrations` statement produces
(`NOW()` modelled by the clock value `now`). -/
def mkRow (m : Migration) (now : Nat) : LedgerRow :=
  ⟨m.name, m.filename, now⟩

/-- `applyMigration`, line by line: `BEGIN`; run the migration body and check
its error (`throw` on failure, caught below by issuing `ROLLBACK` and
returning `false`); on success send the ledger `INSERT` and then `COMMIT`,
the results of both calls left unchecked exactly as in the source; return
`true`. -/
def applyMigration (m : Migration) (body : List SqlStmt) (now : Nat) (s : Session) :
    Session × Bool :=
  let s1 := (exec s .beginTx).1
  match exec s1 (.script body) with
  | (s2, some _) => ((exec s2 .rollbackTx).1, false)
  | (s2, none) =>
    let s3 := (exec s2 (.insertLedger (mkRow m now))).1
    let s4 := (exec s3 .commitTx).1
    (s4, true)

/-- Whether a migration body runs to completion without a statement error. -/
def stmtsOk : List SqlStmt → Bool
  | [] => true
  | .ddl _ :: rest => stmtsOk rest
  | .fail :: _ => false

/-- The schema effects a body produces when it runs to completion. -/
def effectsOf : List SqlStmt → List String
  | [] => []
  | .ddl e :: rest => e :: effectsOf rest
  | .fail :: rest => effectsOf rest

/-- The ledger rows a successful run over consecutive clock values inserts. -/
def appliedRows : List Migration → Nat → List LedgerRow
  | [], _ => []
  | m :: rest, now => mkRow m now :: appliedRows rest (now + 1)

/-! ### Planning (`getAppliedMigrations` / `getPendingMigrations`, lines 50-79) -/

/-- The rows the ledger `SELECT ... ORDER BY applied_at` ascending returns. -/
def getAppliedRows (db : DBState) : List LedgerRow :=
  db.ledger.insertionSort (fun a b => a.appliedAt ≤ b.appliedAt)

/-- `getPendingMigrations`: the catalog minus the applied names, in catalog
order. -/
def getPendingMigrations (files : List String) (db : DBState) : List Migration :=
  let appliedNames := (getAppliedRows db).map LedgerRow.name
  (getMigrations files).filter (fun m => ¬ appliedNames.contains m.name)

/-! ### `runPending` (lines 129-151) -/

/-- The `for` loop of `runPending`: apply each pending migration in order,
stopping with `false` at the first `applyMigration` failure.  The third
component logs, in order, the filenames `applyMigration` announces on entry
(the `应用迁移:` console line), so it records exactly which migrations were
attempted.  The clock advances by one per applied migration. -/
def runPendingLoop (bodies : String → List SqlStmt) :
    List Migration → Nat → Session → Session × Bool × List String
  | [], _, s => (s, true, [])
  | m :: rest, now, s =>
    match applyMigration m (bodies m.filename) now s with
    | (s', true) =>
      let out := runPendingLoop bodies rest (now + 1) s'
      (out.1, out.2.1, m.filename :: out.2.2)
    | (s', false) => (s', false, [m.filename])

/-- `runPending`: plan the pending set, then run the loop.  `bodies` is the
filesystem read `readFileSync(migration.path)` performed per migration. -/
def runPending (files : List String) (bodies : String → List SqlStmt) (now : Nat)
    (s : Session) : Session × Bool × List String :=
  runPendingLoop bodies (getPendingMigrations files s.committed) now s

/-! ### `rollback` (lines 154-205) -/

/-- JavaScript `arr.slice(-steps)`: for `steps = 0` the argument is `-0 === 0`
and the whole array is returned; for `steps > 0` the last
`min steps arr.length` elements. -/
def jsSliceLast (steps : Nat) (l : List α) : List α :=
  if steps = 0 then l else l.drop (l.length - steps)

/-- The `for` loop of `rollback`.  Each iteration logs its filename (the
`回滚迁移:` console line), then runs `BEGIN`; ledger `DELETE`; `COMMIT`, the
results of all three calls unchecked as in the source.  A transport exception
anywhere in the block (the only way the `try` can throw, modelled by the
oracle `throws`) reaches the `catch`, which issues `ROLLBACK` and returns
`false`: every statement of the block sat in the open transaction, so the
committed state is unchanged. -/
def rollbackLoop (throws : LedgerRow → Bool) :
    List LedgerRow → Session → Session × Bool × List String
  | [], s => (s, true, [])
  | r :: rs, s =>
    if throws r then ((exec s .rollbackTx).1, false, [r.filename])
    else
      let s1 := (exec s .beginTx).1
      let s2 := (exec s1 (.deleteLedger r.name)).1
      let s3 := (exec s2 .commitTx).1
      let out := rollbackLoop throws rs s3
      (out.1, out.2.1, r.filename :: out.2.2)

/-- `rollback(steps)`: read the applied rows (ascending `applied_at`); if none,
report success; otherwise revert `slice(-steps).reverse()` — the most recent
first — with the loop above. -/
def rollback (steps : Nat) (throws : LedgerRow → Bool) (s : Session) :
    Session × Bool × List String :=
  let applied := getAppliedRows s.committed
  if applied.isEmpty then (s, true, [])
  else rollbackLoop throws ((jsSliceLast steps applied).reverse) s

/-! ### Error handling of `getAppliedMigrations` (lines 50-70)

The read itself is a remote call whose outcome is the input here; what is
embedded is the JavaScript error handling around it: inside the `try`, a
response error with code `42P01` (undefined table) yields `[]`, any other
response error is thrown — but the enclosing `catch` catches that very throw,
logs a warning, and returns `[]`. -/

/-- A PostgREST error as surfaced to the client: `code` and `message`. -/
structure PgError where
  code : String
  message : String
deriving DecidableEq, Repr

/-- The outcome of the `schema_migrations` select. -/
inductive LedgerReadResult where
  | rows (data : List LedgerRow)
  | failure (e : PgError)
deriving DecidableEq, Repr

/-- The body of the `try` block of `getAppliedMigrations`: `42P01` means the
ledger table does not exist yet and yields `[]`; any other error is thrown. -/
def getAppliedMigrationsTry : LedgerReadResult → Except PgError (List LedgerRow)
  | .rows data => .ok data
  | .failure e => if e.code = "42P01" then .ok [] else .error e

/-- `getAppliedMigrations` as a whole: the `catch` swallows whatever the `try`
body throws and returns `[]`. -/
def getAppliedMigrations (r : LedgerReadResult) : List LedgerRow :=
  match getAppliedMigrationsTry r with
  | .ok data => data
  | .error _ => []

/-! ### The interpolated ledger SQL (lines 102-108 and 178-180)

The `INSERT` and `DELETE` statements are assembled by template-literal
interpolation of `migration.name` and `migration.filename`, with no escaping
or parameterization.  The string constants below are the literal fragments
of the source templates, indentation and newlines included. -/

/-- Text of the `INSERT` template before `migration.name`. -/
def insFragment1 : String :=
  "\n                    INSERT INTO schema_migrations (name, filename, applied_at)\n                    VALUES ('"

/-- Text of the `INSERT` template between `migration.name` and
`migration.filename`. -/
def insFragment2 : String := "', '"

/-- Text of the `INSERT` template after `migration.filename`. -/
def insFragment3 : String := "', NOW());\n                "

/-- The SQL string sent to record a migration (line 104-107). -/
def insertMigrationSql (m : Migration) : String :=
  insFragment1 ++ m.name ++ insFragment2 ++ m.filename ++ insFragment3

/-- Text of the `DELETE` template before `migration.name`. -/
def delFragment1 : String := "DELETE FROM schema_migrations WHERE name = '"

/-- Text of the `DELETE` template after `migration.name`. -/
def delFragment2 : String := "';"

/-- The SQL string sent to remove a ledger record (line 179). -/
def deleteMigrationSql (name : String) : String :=
  delFragment1 ++ name ++ delFragment2

/-- Auxiliary for `sqlQuoteEscape`: double every single quote. -/
def escQuotes : List Char → List Char
  | [] => []
  | c :: cs => if c = '\'' then c :: c :: escQuotes cs else c :: escQuotes cs

/-- Standard SQL escaping of a string literal body: each single quote is
doubled.  `migrate.js` performs no such escaping; this definition only serves
to state that fact. -/
def sqlQuoteEscape (s : String) : String :=
  ⟨escQuotes s.data⟩

/-! ### `create` (lines 240-281) -/

/-- The timestamp part of a scaffolded filename:
`new Date().toISOString().replace(/[-:T.]/g, '').slice(0, 14)`. -/
def compactTimestamp (iso : String) : String :=
  ⟨(iso.data.filter (fun c => ¬ (c = '-' ∨ c = ':' ∨ c = 'T' ∨ c = '.'))).take 14⟩

/-- The filename `create` scaffolds: `<compact-timestamp>_<name>.sql` (the
name is spliced verbatim; there is no further slugging). -/
def migrationFilename (iso name : String) : String :=
  compactTimestamp iso ++ "_" ++ name ++ ".sql"

/-- `writeFileSync` on the set of existing filenames: writing to a present
name overwrites it silently; the set of files gains nothing. -/
def writeFile (fs : List String) (f : String) : List String :=
  if f ∈ fs then fs else fs ++ [f]

/-- `create(name)` over the migrations-directory listing `fs` and the clock
reading `iso`: reject a falsy (empty) name, otherwise scaffold
`<compact-timestamp>_<name>.sql` and write it, returning the new listing and
the filename. -/
def create (fs : List String) (iso name : String) :
    Except String (List String × String) :=
  if name = "" then .error "missing migration name"
  else
    let filename := migrationFilename iso name
    .ok (writeFile fs filename, filename)

/-! ### The `status` percentage (lines 208-237) -/

/-- JavaScript numbers as needed by the `status` computation: `NaN`,
`Infinity`, or a finite value (exact here: the inputs are small integers). -/
inductive JsNum where
  | nan : JsNum
  | posInf : JsNum
  | finite (q : ℚ) : JsNum
deriving DecidableEq, Repr

/-- IEEE-754 division of two nonnegative integers as JavaScript performs it:
`0 / 0` is `NaN`, `a / 0` is `Infinity` for `a > 0`. -/
def jsDivNat (a b : Nat) : JsNum :=
  if b = 0 then (if a = 0 then .nan else .posInf) else .finite ((a : ℚ) / (b : ℚ))

/-- Multiplication by the positive literal `100`: `NaN` and `Infinity`
propagate. -/
def jsMul100 : JsNum → JsNum
  | .nan => .nan
  | .posInf => .posInf
  | .finite q => .finite (q * 100)

/-- The applied-percentage `status` prints:
`(appliedMigrations.length / allMigrations.length) * 100`, with no guard on
an empty catalog. -/
def statusPercent (catalog : List Migration) (applied : List LedgerRow) : JsNum :=
  jsMul100 (jsDivNat applied.length catalog.length)

/-! ## Lemmas about `runStmts` and `applyMigration` -/

theorem runStmts_ok : ∀ (body : List SqlStmt) (db : DBState), stmtsOk body = true →
    runStmts body db = (⟨db.schema ++ effectsOf body, db.ledger⟩, none)
  | [], db, _ => by simp [runStmts, effectsOf]
  | .ddl e :: rest, db, h => by
    have ih := runStmts_ok rest ⟨db.schema ++ [e], db.ledger⟩ h
    simp only [runStmts]
    rw [show ({ db with schema := db.schema ++ [e] } : DBState) =
      ⟨db.schema ++ [e], db.ledger⟩ from rfl, ih]
    simp [effectsOf, List.append_assoc]
  | .fail :: _, _, h => by simp [stmtsOk] at h

theorem runStmts_fail : ∀ (body : List SqlStmt) (db : DBState), stmtsOk body = false →
    ∃ db', runStmts body db = (db', some .stmtFailed)
  | [], _, h => by simp [stmtsOk] at h
  | .ddl e :: rest, db, h => runStmts_fail rest ⟨db.schema ++ [e], db.ledger⟩ h
  | .fail :: _, db, _ => ⟨db, rfl⟩

theorem ledger_any_eq_false {l : List LedgerRow} {n : String}
    (h : n ∉ l.map LedgerRow.name) : (l.any fun r => r.name = n) = false := by
  rw [Bool.eq_false_iff]
  intro hc
  rw [List.any_eq_true] at hc
  obtain ⟨r, hr, hn⟩ := hc
  exact h (List.mem_map.mpr ⟨r, hr, by simpa using hn⟩)

theorem applyMigration_fail (m : Migration) (body : List SqlStmt) (now : Nat) (s : Session)
    (hs : s.tx = none) (hb : stmtsOk body = false) :
    applyMigration m body now s = (⟨s.committed, none⟩, false) := by
  obtain ⟨db', hdb⟩ := runStmts_fail body s.committed hb
  rcases s with ⟨com, tx⟩
  simp only at hs
  subst hs
  simp only [applyMigration, exec, hdb]
  simp

theorem applyMigration_ok (m : Migration) (body : List SqlStmt) (now : Nat) (s : Session)
    (hs : s.tx = none) (hb : stmtsOk body = true)
    (hfresh : m.name ∉ s.committed.ledger.map LedgerRow.name) :
    applyMigration m body now s =
      (⟨⟨s.committed.schema ++ effectsOf body,
          s.committed.ledger ++ [mkRow m now]⟩, none⟩, true) := by
  rcases s with ⟨com, tx⟩
  simp only at hs
  subst hs
  have hrun := runStmts_ok body com hb
  have hany : (com.ledger.any fun r => r.name = m.name) = false :=
    ledger_any_eq_false (by simpa using hfresh)
  simp only [applyMigration, exec, hrun]
  simp [mkRow, hany]

/-- C1: for every migration, `applyMigration` is atomic with respect to the
ledger: on a clean session whose ledger does not yet record the migration, if
any statement of the migration's SQL fails the transaction is rolled back and
afterwards the committed state is unchanged — in particular no ledger record
for the migration exists; if the SQL succeeds the ledger record is inserted
inside the same transaction before the commit, so afterwards the schema
effects and the ledger record are committed together. -/
theorem c1_apply_atomic (m : Migration) (body : List SqlStmt) (now : Nat) (s : Session)
    (hs : s.tx = none) (hfresh : m.name ∉ s.committed.ledger.map LedgerRow.name) :
    (stmtsOk body = false →
      applyMigration m body now s = (⟨s.committed, none⟩, false) ∧
      m.name ∉ ((applyMigration m body now s).1.committed.ledger.map LedgerRow.name)) ∧
    (stmtsOk body = true →
      applyMigration m body now s =
        (⟨⟨s.committed.schema ++ effectsOf body,
            s.committed.ledger ++ [mkRow m now]⟩, none⟩, true) ∧
      m.name ∈ ((applyMigration m body now s).1.committed.ledger.map LedgerRow.name)) := by
  constructor
  · intro hb
    have h := applyMigration_fail m body now s hs hb
    exact ⟨h, by rw [h]; exact hfresh⟩
  · intro hb
    have h := applyMigration_ok m body now s hs hb hfresh
    refine ⟨h, ?_⟩
    rw [h]
    simp [mkRow]

/-- Witness for C1: a failing body leaves a fresh session untouched; a
succeeding one commits the schema effect and the ledger row together. -/
theorem c1_apply_atomic_witness :
    applyMigration ⟨"1_a.sql", "1_a", some 1⟩ [.ddl "ta", .fail] 5 ⟨⟨[], []⟩, none⟩ =
      (⟨⟨[], []⟩, none⟩, false) ∧
    applyMigration ⟨"1_a.sql", "1_a", some 1⟩ [.ddl "ta"] 5 ⟨⟨[], []⟩, none⟩ =
      (⟨⟨["ta"], [⟨"1_a", "1_a.sql", 5⟩]⟩, none⟩, true) := by
  constructor
  · exact ((c1_apply_atomic ⟨"1_a.sql", "1_a", some 1⟩ [.ddl "ta", .fail] 5
      ⟨⟨[], []⟩, none⟩ rfl (by decide)).1 rfl).1
  · exact ((c1_apply_atomic ⟨"1_a.sql", "1_a", some 1⟩ [.ddl "ta"] 5
      ⟨⟨[], []⟩, none⟩ rfl (by decide)).2 rfl).1

/-! ## `runPending` is fail-fast (C2) -/

theorem appliedRows_map_name : ∀ (p : List Migration) (now : Nat),
    (appliedRows p now).map LedgerRow.name = p.map Migration.name
  | [], _ => rfl
  | m :: rest, now => by
    simp [appliedRows, mkRow, appliedRows_map_name rest (now + 1)]

theorem runPendingLoop_fail_fast (bodies : String → List SqlStmt)
    (b : Migration) (rest : List Migration) (hb : stmtsOk (bodies b.filename) = false) :
    ∀ (p : List Migration) (now : Nat) (s : Session), s.tx = none →
      (∀ m ∈ p, stmtsOk (bodies m.filename) = true) →
      (s.committed.ledger.map LedgerRow.name ++ p.map Migration.name).Nodup →
      runPendingLoop bodies (p ++ b :: rest) now s =
        (⟨⟨s.committed.schema ++ (p.map (fun m => effectsOf (bodies m.filename))).flatten,
            s.committed.ledger ++ appliedRows p now⟩, none⟩, false,
          p.map Migration.filename ++ [b.filename])
  | [], now, s, hs, _, _ => by
    have h := applyMigration_fail b (bodies b.filename) now s hs hb
    simp only [List.nil_append, runPendingLoop, h]
    simp [appliedRows]
  | a :: p', now, s, hs, hok, hnd => by
    rcases List.nodup_append.mp hnd with ⟨-, -, hdisj⟩
    have hfa : a.name ∉ s.committed.ledger.map LedgerRow.name := by
      intro hmem
      exact hdisj hmem (by simp)
    have ha := applyMigration_ok a (bodies a.filename) now s hs
      (hok a (by simp)) hfa
    have hnd' : (((⟨⟨s.committed.schema ++ effectsOf (bodies a.filename),
        s.committed.ledger ++ [mkRow a now]⟩, none⟩ : Session).committed.ledger.map
          LedgerRow.name) ++ p'.map Migration.name).Nodup := by
      simp only [List.map_append, List.map_cons, List.map_nil, mkRow]
      rw [List.append_assoc]
      simpa using hnd
    have ih := runPendingLoop_fail_fast bodies b rest hb p' (now + 1)
      ⟨⟨s.committed.schema ++ effectsOf (bodies a.filename),
        s.committed.ledger ++ [mkRow a now]⟩, none⟩ rfl
      (fun m hm => hok m (by simp [hm])) hnd'
    simp only [List.cons_append, runPendingLoop, ha]
    simp only [List.append_eq]
    rw [ih]
    simp [appliedRows, List.append_assoc]

/-- C2: `up()` is fail-fast.  If the pending plan is `p ++ [b] ++ rest` where
every migration of `p` succeeds and `b`'s SQL fails, then after `runPending`
the migrations of `p` are applied and ledgered in order (each committed by
its own transaction), `b` is not ledgered, the run reports failure, and the
attempted-migration log is exactly `p`'s filenames followed by `b`'s — the
migrations of `rest` are never attempted. -/
theorem c2_up_fail_fast (files : List String) (bodies : String → List SqlStmt)
    (now : Nat) (s : Session) (p : List Migration) (b : Migration)
    (rest : List Migration) (hs : s.tx = none)
    (hplan : getPendingMigrations files s.committed = p ++ b :: rest)
    (hok : ∀ m ∈ p, stmtsOk (bodies m.filename) = true)
    (hb : stmtsOk (bodies b.filename) = false)
    (hnd : (s.committed.ledger.map LedgerRow.name ++
      (p.map Migration.name ++ [b.name])).Nodup) :
    runPending files bodies now s =
      (⟨⟨s.committed.schema ++ (p.map (fun m => effectsOf (bodies m.filename))).flatten,
          s.committed.ledger ++ appliedRows p now⟩, none⟩, false,
        p.map Migration.filename ++ [b.filename]) ∧
    (∀ m ∈ p, m.name ∈
      ((runPending files bodies now s).1.committed.ledger.map LedgerRow.name)) ∧
    b.name ∉ ((runPending files bodies now s).1.committed.ledger.map LedgerRow.name) := by
  have hnd₀ : (s.committed.ledger.map LedgerRow.name ++ p.map Migration.name).Nodup := by
    refine List.Nodup.sublist ?_ hnd
    exact (List.sublist_append_left _ _).append_left _
  have main := runPendingLoop_fail_fast bodies b rest hb p now s hs hok hnd₀
  rw [runPending, hplan] at *
  refine ⟨main, ?_, ?_⟩
  · intro m hm
    rw [main]
    simp only [List.map_append, appliedRows_map_name, List.mem_append]
    exact Or.inr (List.mem_map_of_mem _ hm)
  · rw [main]
    simp only [List.map_append, appliedRows_map_name, List.mem_append]
    rintro (hL | hP)
    · rcases List.nodup_append.mp hnd with ⟨-, -, hdisj⟩
      exact hdisj hL (by simp)
    · rcases List.nodup_append.mp ((List.nodup_append.mp hnd).2.1) with ⟨-, -, hdisj⟩
      exact hdisj hP (by simp)

/-- Witness for C2 at the spec's concrete scenario: pending `[A, B, C]` with
`B` failing — `A` is applied and ledgered, `B` attempted but not ledgered,
`C` never attempted. -/
theorem c2_up_fail_fast_witness :
    runPending ["1_a.sql", "2_b.sql", "3_c.sql"]
      (fun f => if f = "2_b.sql" then [.fail] else [.ddl f]) 0 ⟨⟨[], []⟩, none⟩ =
      (⟨⟨["1_a.sql"], [⟨"1_a", "1_a.sql", 0⟩]⟩, none⟩, false,
        ["1_a.sql", "2_b.sql"]) := by
  have h := c2_up_fail_fast ["1_a.sql", "2_b.sql", "3_c.sql"]
    (fun f => if f = "2_b.sql" then [.fail] else [.ddl f]) 0 ⟨⟨[], []⟩, none⟩
    [⟨"1_a.sql", "1_a", some 1⟩] ⟨"2_b.sql", "2_b", some 2⟩ [⟨"3_c.sql", "3_c", some 3⟩]
    rfl (by decide) (by decide) (by decide) (by decide)
  exact h.1

/-! ## `rollback` lemmas (C6, C8) -/

theorem rollbackLoop_no_throw (throws : LedgerRow → Bool) :
    ∀ (rs : List LedgerRow) (s : Session), (∀ r ∈ rs, throws r = false) → s.tx = none →
      rollbackLoop throws rs s =
        (⟨⟨s.committed.schema,
            s.committed.ledger.filter (fun x => x.name ∉ rs.map LedgerRow.name)⟩, none⟩,
          true, rs.map LedgerRow.filename)
  | [], s, _, hs => by
    rcases s with ⟨com, tx⟩
    simp only at hs
    subst hs
    simp [rollbackLoop]
  | r :: rs, s, hth, hs => by
    rcases s with ⟨com, tx⟩
    simp only at hs
    subst hs
    have hthr : throws r = false := hth r (by simp)
    have ih := rollbackLoop_no_throw throws rs
      ⟨⟨com.schema, com.ledger.filter (fun x => x.name ≠ r.name)⟩, none⟩
      (fun x hx => hth x (by simp [hx])) rfl
    simp only [rollbackLoop, hthr, exec, Bool.false_eq_true, if_false]
    rw [ih]
    have hled : (com.ledger.filter (fun x => x.name ≠ r.name)).filter
        (fun x => x.name ∉ rs.map LedgerRow.name) =
        com.ledger.filter (fun x => x.name ∉ (r :: rs).map LedgerRow.name) := by
      rw [List.filter_filter]
      refine List.filter_congr ?_
      intro a _
      by_cases h1 : a.name = r.name <;> by_cases h2 : a.name ∈ rs.map LedgerRow.name <;>
        simp [h1, h2]
    simp only [hled]
    simp

theorem rollbackLoop_throw_at (throws : LedgerRow → Bool) (r : LedgerRow)
    (q' : List LedgerRow) (hr : throws r = true) :
    ∀ (q : List LedgerRow) (s : Session), (∀ x ∈ q, throws x = false) → s.tx = none →
      rollbackLoop throws (q ++ r :: q') s =
        (⟨⟨s.committed.schema,
            s.committed.ledger.filter (fun x => x.name ∉ q.map LedgerRow.name)⟩, none⟩,
          false, q.map LedgerRow.filename ++ [r.filename])
  | [], s, _, hs => by
    rcases s with ⟨com, tx⟩
    simp only at hs
    subst hs
    simp [rollbackLoop, hr, exec]
  | x :: q, s, hth, hs => by
    rcases s with ⟨com, tx⟩
    simp only at hs
    subst hs
    have hthx : throws x = false := hth x (by simp)
    have ih := rollbackLoop_throw_at throws r q' hr q
      ⟨⟨com.schema, com.ledger.filter (fun y => y.name ≠ x.name)⟩, none⟩
      (fun y hy => hth y (by simp [hy])) rfl
    simp only [List.cons_append, rollbackLoop, hthx, exec, Bool.false_eq_true, if_false]
    simp only [List.append_eq]
    rw [ih]
    have hled : (com.ledger.filter (fun y => y.name ≠ x.name)).filter
        (fun y => y.name ∉ q.map LedgerRow.name) =
        com.ledger.filter (fun y => y.name ∉ (x :: q).map LedgerRow.name) := by
      rw [List.filter_filter]
      refine List.filter_congr ?_
      intro a _
      by_cases h1 : a.name = x.name <;> by_cases h2 : a.name ∈ q.map LedgerRow.name <;>
        simp [h1, h2]
    simp only [hled]
    simp

theorem filter_not_mem_drop_names (L : List LedgerRow) (k : Nat)
    (hnd : (L.map LedgerRow.name).Nodup) :
    L.filter (fun x => x.name ∉ (L.drop k).map LedgerRow.name) = L.take k := by
  have hnd' : ((L.take k).map LedgerRow.name ++ (L.drop k).map LedgerRow.name).Nodup := by
    rw [← List.map_append, List.take_append_drop]
    exact hnd
  rcases List.nodup_append.mp hnd' with ⟨-, -, hdisj⟩
  have h₁ : (L.take k).filter (fun x => x.name ∉ (L.drop k).map LedgerRow.name) =
      L.take k := by
    rw [List.filter_eq_self]
    intro a ha
    simp only [decide_eq_true_eq]
    exact hdisj (List.mem_map_of_mem _ ha)
  have h₂ : (L.drop k).filter (fun x => x.name ∉ (L.drop k).map LedgerRow.name) = [] := by
    rw [List.filter_eq_nil_iff]
    intro a ha
    simp only [decide_eq_true_eq, not_not]
    exact List.mem_map_of_mem _ ha
  calc L.filter (fun x => x.name ∉ (L.drop k).map LedgerRow.name)
      = (L.take k ++ L.drop k).filter (fun x => x.name ∉ (L.drop k).map LedgerRow.name) := by
        rw [List.take_append_drop]
    _ = L.take k := by rw [List.filter_append, h₁, h₂, List.append_nil]

/-- C6: for `n ≥ 1`, `rollback n` selects the `n` most-recently-applied ledger
rows (the ledger is read back ordered by `applied_at` ascending, and the last
`n` are taken and reversed, so they are processed most recent first), removes
each selected row's ledger record in that order, and stops at the first
failure: without failures exactly the selected records are removed and the
earlier ones remain; if a revert throws after some prefix `q` succeeded, only
`q`'s records are removed, the failing migration's record is retained, the
run reports failure, and no later record is attempted. -/
theorem c6_down_scope (n : Nat) (s : Session) (throws : LedgerRow → Bool)
    (hs : s.tx = none) (h1 : 1 ≤ n)
    (hsorted : List.Sorted (fun a b : LedgerRow => a.appliedAt ≤ b.appliedAt)
      s.committed.ledger)
    (hnd : (s.committed.ledger.map LedgerRow.name).Nodup) :
    ((∀ x ∈ (s.committed.ledger.drop (s.committed.ledger.length - n)).reverse,
        throws x = false) →
      rollback n throws s =
        (⟨⟨s.committed.schema,
            s.committed.ledger.take (s.committed.ledger.length - n)⟩, none⟩, true,
          ((s.committed.ledger.drop (s.committed.ledger.length - n)).reverse).map
            LedgerRow.filename)) ∧
    (∀ (q : List LedgerRow) (r : LedgerRow) (q' : List LedgerRow),
      (s.committed.ledger.drop (s.committed.ledger.length - n)).reverse = q ++ r :: q' →
      (∀ x ∈ q, throws x = false) → throws r = true →
      rollback n throws s =
        (⟨⟨s.committed.schema,
            s.committed.ledger.filter (fun x => x.name ∉ q.map LedgerRow.name)⟩, none⟩,
          false, q.map LedgerRow.filename ++ [r.filename])) := by
  rcases s with ⟨⟨sch, led⟩, tx⟩
  simp only at hs
  subst hs
  simp only at hsorted hnd ⊢
  have happ : getAppliedRows ⟨sch, led⟩ = led := hsorted.insertionSort_eq
  constructor
  · intro hth
    by_cases hemp : led = []
    · subst hemp
      simp [rollback, happ]
    · have hval : led.isEmpty = false := by
        cases led with
        | nil => exact absurd rfl hemp
        | cons a l => rfl
      have hslice : jsSliceLast n led = led.drop (led.length - n) := by
        unfold jsSliceLast
        rw [if_neg (by omega)]
      have hloop := rollbackLoop_no_throw throws
        ((led.drop (led.length - n)).reverse) ⟨⟨sch, led⟩, none⟩ hth rfl
      simp only [rollback, happ, hval, Bool.false_eq_true, if_false, hslice]
      rw [hloop]
      have hpred : led.filter (fun x =>
          x.name ∉ ((led.drop (led.length - n)).reverse).map LedgerRow.name) =
          led.filter (fun x =>
            x.name ∉ (led.drop (led.length - n)).map LedgerRow.name) :=
        List.filter_congr (fun a _ => by simp [List.map_reverse, List.mem_reverse])
      simp only [hpred, filter_not_mem_drop_names led (led.length - n) hnd]
  · intro q r q' hdec hq hr
    by_cases hemp : led = []
    · subst hemp
      simp at hdec
    · have hval : led.isEmpty = false := by
        cases led with
        | nil => exact absurd rfl hemp
        | cons a l => rfl
      have hslice : jsSliceLast n led = led.drop (led.length - n) := by
        unfold jsSliceLast
        rw [if_neg (by omega)]
      have hloop := rollbackLoop_throw_at throws r q' hr q ⟨⟨sch, led⟩, none⟩ hq rfl
      simp only [rollback, happ, hval, Bool.false_eq_true, if_false, hslice, hdec]
      rw [hloop]

/-- Witness for C6 at the spec's concrete scenario: with `[A, B, C]` all
applied, `down(2)` removes the ledger records for `C` and `B`, in that order,
leaving `A` applied. -/
theorem c6_down_scope_witness :
    rollback 2 (fun _ => false)
      ⟨⟨["ta", "tb", "tc"],
        [⟨"a", "a.sql", 1⟩, ⟨"b", "b.sql", 2⟩, ⟨"c", "c.sql", 3⟩]⟩, none⟩ =
      (⟨⟨["ta", "tb", "tc"], [⟨"a", "a.sql", 1⟩]⟩, none⟩, true, ["c.sql", "b.sql"]) :=
  (c6_down_scope 2
    ⟨⟨["ta", "tb", "tc"],
      [⟨"a", "a.sql", 1⟩, ⟨"b", "b.sql", 2⟩, ⟨"c", "c.sql", 3⟩]⟩, none⟩
    (fun _ => false) rfl (by omega) (by decide) (by decide)).1 (fun x _ => rfl)

/-- C8: `rollback 0` reverts every applied migration's ledger record, because
JavaScript `slice(-0)` is `slice(0)` and selects the entire applied list. -/
theorem c8_down_zero_reverts_all (s : Session) (hs : s.tx = none)
    (hsorted : List.Sorted (fun a b : LedgerRow => a.appliedAt ≤ b.appliedAt)
      s.committed.ledger) :
    jsSliceLast 0 s.committed.ledger = s.committed.ledger ∧
    rollback 0 (fun _ => false) s =
      (⟨⟨s.committed.schema, []⟩, none⟩, true,
        (s.committed.ledger.reverse).map LedgerRow.filename) := by
  rcases s with ⟨⟨sch, led⟩, tx⟩
  simp only at hs
  subst hs
  simp only at hsorted ⊢
  refine ⟨rfl, ?_⟩
  have happ : getAppliedRows ⟨sch, led⟩ = led := hsorted.insertionSort_eq
  by_cases hemp : led = []
  · subst hemp
    simp [rollback, happ]
  · have hval : led.isEmpty = false := by
      cases led with
      | nil => exact absurd rfl hemp
      | cons a l => rfl
    have hloop := rollbackLoop_no_throw (fun _ => false) led.reverse
      ⟨⟨sch, led⟩, none⟩ (fun _ _ => rfl) rfl
    simp only [rollback, happ, hval, Bool.false_eq_true, if_false, jsSliceLast,
      if_pos]
    rw [hloop]
    have hnil : led.filter (fun x => x.name ∉ (led.reverse).map LedgerRow.name) = [] := by
      rw [List.filter_eq_nil_iff]
      intro a ha
      simp only [decide_eq_true_eq, not_not, List.map_reverse, List.mem_reverse]
      exact List.mem_map_of_mem _ ha
    rw [hnil]

/-- Witness for C8: with `[A, B]` applied, `down(0)` removes both ledger
records, most recent first. -/
theorem c8_down_zero_reverts_all_witness :
    rollback 0 (fun _ => false)
      ⟨⟨["ta"], [⟨"a", "a.sql", 1⟩, ⟨"b", "b.sql", 2⟩]⟩, none⟩ =
      (⟨⟨["ta"], []⟩, none⟩, true, ["b.sql", "a.sql"]) :=
  (c8_down_zero_reverts_all
    ⟨⟨["ta"], [⟨"a", "a.sql", 1⟩, ⟨"b", "b.sql", 2⟩]⟩, none⟩ rfl (by decide)).2

/-! ## Catalog ordering and filtering (C4, C5) -/

theorem getMigrations_map_filename (files : List String) :
    (getMigrations files).map Migration.filename =
      (files.filter (fun f => jsEndsWith f ".sql")).insertionSort jsLe := by
  have hid : (Migration.filename ∘ mkMigration) = id := rfl
  rw [getMigrations, List.map_map, hid, List.map_id]

/-- C4 counterexample: with files `9_a.sql` and `10_b.sql`, the catalog comes
back in lexical filename order `[10_b.sql, 9_a.sql]`, so the versions read
`[10, 9]` — not ascending by version as the claim states. -/
theorem c4_counterexample :
    (getMigrations ["9_a.sql", "10_b.sql"]).map Migration.timestamp =
      [some 10, some 9] ∧
    ¬ List.Sorted (fun a b : Migration => a.timestamp.getD 0 ≤ b.timestamp.getD 0)
      (getMigrations ["9_a.sql", "10_b.sql"]) := by
  constructor
  · decide
  · decide

/-- C4 amended: `getMigrations` returns the catalog ordered ascending by
lexical filename order (JavaScript's default sort), the catalog is exactly
the `.sql` files, and each entry's version is the parsed numeric prefix of
its filename (its name the filename without the first `.sql`).  Ascending
version order holds only when lexical and numeric order agree, e.g. for
equal-length timestamp prefixes. -/
theorem c4_catalog_order (files : List String) :
    List.Sorted jsLe ((getMigrations files).map Migration.filename) ∧
    ((getMigrations files).map Migration.filename).Perm
      (files.filter (fun f => jsEndsWith f ".sql")) ∧
    ∀ m ∈ getMigrations files,
      m.timestamp = parseIntJs (jsSplitHead m.filename '_') ∧
      m.name = jsReplaceFirst m.filename ".sql" := by
  refine ⟨?_, ?_, ?_⟩
  · rw [getMigrations_map_filename]
    exact List.sorted_insertionSort jsLe _
  · rw [getMigrations_map_filename]
    exact List.perm_insertionSort jsLe _
  · intro m hm
    rw [getMigrations, List.mem_map] at hm
    obtain ⟨f, -, rfl⟩ := hm
    exact ⟨rfl, rfl⟩

/-- Witness for C4 (amended) on a concrete listing. -/
theorem c4_catalog_order_witness :
    List.Sorted jsLe ((getMigrations ["9_a.sql", "10_b.sql"]).map Migration.filename) ∧
    (⟨"10_b.sql", "10_b", some 10⟩ : Migration).timestamp =
      parseIntJs (jsSplitHead "10_b.sql" '_') :=
  ⟨(c4_catalog_order ["9_a.sql", "10_b.sql"]).1,
    ((c4_catalog_order ["9_a.sql", "10_b.sql"]).2.2
      ⟨"10_b.sql", "10_b", some 10⟩ (by decide)).1⟩

/-- C5 counterexample: `notes.sql` has no numeric prefix, yet it appears in
the catalog (with `NaN` as its parsed version) instead of being skipped. -/
theorem c5_counterexample :
    (getMigrations ["notes.sql"]).map Migration.filename = ["notes.sql"] ∧
    (getMigrations ["notes.sql"]).map Migration.timestamp = [none] := by
  constructor
  · decide
  · decide

/-- C5 amended: `getMigrations` silently skips exactly the files whose name
does not end in `.sql`; a `.sql` file that does not match the
`<numeric-prefix>_<slug>` pattern is still included in the catalog. -/
theorem c5_extension_only_filter (files : List String) (f : String) :
    f ∈ (getMigrations files).map Migration.filename ↔
      f ∈ files ∧ jsEndsWith f ".sql" = true := by
  rw [getMigrations_map_filename, (List.perm_insertionSort jsLe _).mem_iff,
    List.mem_filter]

/-- Witness for C5 (amended): a prefixless `.sql` file is in the catalog, a
non-`.sql` file is not. -/
theorem c5_extension_only_filter_witness :
    "notes.sql" ∈ (getMigrations ["notes.sql"]).map Migration.filename ∧
    "readme.md" ∉ (getMigrations ["readme.md"]).map Migration.filename := by
  constructor
  · exact (c5_extension_only_filter ["notes.sql"] "notes.sql").mpr ⟨by decide, by decide⟩
  · intro h
    exact absurd ((c5_extension_only_filter ["readme.md"] "readme.md").mp h).2 (by decide)

/-! ## Ledger read error handling (C3) -/

/-- C3: evaluation of `getAppliedMigrations` at the failing input.  A read
failure whose code is not `42P01` (here `08006`, a connection failure) is
thrown by the `try` body — the intended abort — but the enclosing `catch`
swallows that very throw, so the function returns the empty list,
indistinguishable from the bootstrap case, and the run proceeds on empty
state instead of aborting. -/
theorem c3_ledger_read_errors_swallowed :
    getAppliedMigrationsTry (.failure ⟨"08006", "connection failure"⟩) =
      .error ⟨"08006", "connection failure"⟩ ∧
    getAppliedMigrations (.failure ⟨"08006", "connection failure"⟩) = [] ∧
    getAppliedMigrations (.failure ⟨"42P01", "relation does not exist"⟩) = [] ∧
    getAppliedMigrations (.rows [⟨"a", "a.sql", 1⟩]) = [⟨"a", "a.sql", 1⟩] :=
  ⟨rfl, rfl, rfl, rfl⟩

/-! ## `create` (C7) -/

/-- C7 counterexample: two `create` calls with the same name inside the same
timestamp second produce the same filename, and the second call's
`writeFileSync` silently overwrites the first file — the directory still
holds a single file. -/
theorem c7_counterexample :
    create [] "2024-01-01T00:00:00.000Z" "add_users" =
      .ok (["20240101000000_add_users.sql"], "20240101000000_add_users.sql") ∧
    create ["20240101000000_add_users.sql"] "2024-01-01T00:00:00.000Z" "add_users" =
      .ok (["20240101000000_add_users.sql"], "20240101000000_add_users.sql") :=
  ⟨rfl, rfl⟩

theorem migrationFilename_inj (iso n₁ n₂ : String)
    (h : migrationFilename iso n₁ = migrationFilename iso n₂) : n₁ = n₂ := by
  have hd := congrArg String.data h
  simp only [migrationFilename, String.data_append] at hd
  exact String.ext (List.append_cancel_left (List.append_cancel_right hd))

/-- C7 amended: `create(name)` rejects an empty name and otherwise scaffolds
`<compact-timestamp>_<name>.sql`; within one timestamp window two calls
produce distinct filenames if and only if their names differ — same-window
calls with the same name collide and the second silently overwrites the
first. -/
theorem c7_create_scaffold (iso n₁ n₂ : String) (h₁ : n₁ ≠ "") :
    (∀ fs, create fs iso "" = .error "missing migration name") ∧
    (∀ fs, create fs iso n₁ =
      .ok (writeFile fs (migrationFilename iso n₁), migrationFilename iso n₁)) ∧
    (migrationFilename iso n₁ = migrationFilename iso n₂ ↔ n₁ = n₂) := by
  refine ⟨fun fs => rfl, fun fs => by simp [create, h₁], ?_⟩
  constructor
  · exact migrationFilename_inj iso n₁ n₂
  · rintro rfl
    rfl

/-- Witness for C7 (amended): same window, different names — distinct files. -/
theorem c7_create_scaffold_witness :
    migrationFilename "2024-01-01T00:00:00.000Z" "a" ≠
      migrationFilename "2024-01-01T00:00:00.000Z" "b" := by
  intro he
  have h := (c7_create_scaffold "2024-01-01T00:00:00.000Z" "a" "b" (by decide)).2.2
  exact absurd (h.mp he) (by decide)

/-! ## Interpolated SQL (C9) -/

theorem escQuotes_length : ∀ l : List Char,
    (escQuotes l).length = l.length + l.count '\''
  | [] => rfl
  | c :: cs => by
    have ih := escQuotes_length cs
    by_cases h : c = '\''
    · simp only [escQuotes, if_pos h, List.length_cons, List.count_cons, ih, h,
        beq_self_eq_true, if_true]
      omega
    · simp only [escQuotes, if_neg h, List.length_cons, List.count_cons, ih]
      rw [if_neg (by simp [h])]
      omega

/-- C9: the ledger `INSERT` and `DELETE` statements are assembled by verbatim
interpolation of the migration's name and filename between single-quote
delimiters — the quote count of the result is exactly the delimiters plus
whatever quotes the name and filename carry, so nothing is escaped — and for
a name containing a single quote the spliced text differs from its properly
escaped form: the quote stands unescaped inside the SQL literal. -/
theorem c9_ledger_sql_unescaped (m : Migration) (h : '\'' ∈ m.name.data) :
    insertMigrationSql m =
      insFragment1 ++ m.name ++ insFragment2 ++ m.filename ++ insFragment3 ∧
    deleteMigrationSql m.name = delFragment1 ++ m.name ++ delFragment2 ∧
    (insertMigrationSql m).data.count '\'' =
      m.name.data.count '\'' + m.filename.data.count '\'' + 4 ∧
    (deleteMigrationSql m.name).data.count '\'' = m.name.data.count '\'' + 2 ∧
    m.name ≠ sqlQuoteEscape m.name := by
  have c1 : insFragment1.data.count '\'' = 1 := by decide
  have c2 : insFragment2.data.count '\'' = 2 := by decide
  have c3 : insFragment3.data.count '\'' = 1 := by decide
  have d1 : delFragment1.data.count '\'' = 1 := by decide
  have d2 : delFragment2.data.count '\'' = 1 := by decide
  refine ⟨rfl, rfl, ?_, ?_, ?_⟩
  · rw [insertMigrationSql]
    simp only [String.data_append, List.count_append, c1, c2, c3]
    omega
  · rw [deleteMigrationSql]
    simp only [String.data_append, List.count_append, d1, d2]
    omega
  · intro he
    have hl := congrArg (fun s : String => s.data.length) he
    simp only [sqlQuoteEscape, escQuotes_length] at hl
    have hpos : 0 < m.name.data.count '\'' := List.count_pos_iff.mpr h
    omega

/-- Witness for C9: the name `o'brien` is spliced verbatim into the `DELETE`
statement, its quote unescaped inside the SQL literal. -/
theorem c9_ledger_sql_unescaped_witness :
    deleteMigrationSql "o'brien" =
      "DELETE FROM schema_migrations WHERE name = 'o'brien';" ∧
    "o'brien" ≠ sqlQuoteEscape "o'brien" := by
  have h := c9_ledger_sql_unescaped ⟨"f.sql", "o'brien", none⟩ (by decide)
  exact ⟨h.2.1, h.2.2.2.2⟩

/-! ## `status` on an empty catalog (C10) -/

/-- C10: with an empty source catalog and nothing applied, the `status`
percentage is computed as `0 / 0` with no guard on the total, which is `NaN`
in JavaScript — not `0` and not an error. -/
theorem c10_status_percent_nan (files : List String) (applied : List LedgerRow)
    (hcat : getMigrations files = []) (happ : applied = []) :
    statusPercent (getMigrations files) applied = JsNum.nan ∧
    JsNum.nan ≠ JsNum.finite 0 := by
  subst happ
  rw [hcat]
  exact ⟨rfl, fun hc => JsNum.noConfusion hc⟩

/-- Witness for C10: the empty migrations directory. -/
theorem c10_status_percent_nan_witness :
    statusPercent (getMigrations []) [] = JsNum.nan :=
  (c10_status_percent_nan [] [] rfl rfl).1

end Migrate
